import Mathlib

/-!
Verification of the BusMaster-log-to-CSV converter's signal decoding core
(`busmaster_converter.py`), shallowly embedded in Lean.

Python machine-level remarks reflected in the embedding:
* Python integers are unbounded, so all integer arithmetic is modelled with
  `Nat`/`Int` directly (no wrapping).
* `b'\x00' * k` for negative `k` is the empty bytes object; `Nat` truncated
  subtraction `8 - len` reproduces this for payloads longer than 8 bytes.
* `x >> s` raises `ValueError` for negative `s`; the decoder's `try/except`
  turns any such exception into `None`.  The embedding returns `none` on the
  branches where the Python code would raise.
* Python floats are modelled by `ℚ`; the claims under study concern the
  algebraic form of the scaling step, not IEEE rounding.
-/

namespace Busmaster

/-- Embeds the `DBCSignal` dataclass: one bit-field description.
`factor`/`offset`/`minimum`/`maximum` are Python floats, modelled by `ℚ`. -/
structure DBCSignal where
  name : String
  start_bit : Nat
  size : Nat
  is_little_endian : Bool
  is_signed : Bool
  factor : ℚ
  offset : ℚ
  minimum : ℚ
  maximum : ℚ
  unit : String
deriving DecidableEq

/-- Embeds the `DBCMessage` dataclass; the `signals` dict is modelled as an
association list in insertion order (Python dicts iterate in insertion order). -/
structure DBCMessage where
  can_id : Nat
  name : String
  dlc : Nat
  signals : List (String × DBCSignal)
deriving DecidableEq

/-- Embeds the `CANMessage` dataclass: one parsed log record. The payload is
a list of byte values. -/
structure CANMessage where
  timestamp : String
  direction : String
  channel : Nat
  can_id : Nat
  dlc : Nat
  data : List Nat
deriving DecidableEq

/-- Little-endian interpretation of a byte list as an unbounded integer:
`int.from_bytes(bs, byteorder='little')` (byte 0 is least significant). -/
def bytesToNat : List Nat → Nat
  | [] => 0
  | b :: bs => b + 256 * bytesToNat bs

/-- `data + b'\x00' * (8 - len(data))` — right-pad to 8 bytes; for payloads
longer than 8 bytes Python's negative repeat count yields no padding, which
`Nat` truncated subtraction reproduces. -/
def padTo8 (data : List Nat) : List Nat :=
  data ++ List.replicate (8 - data.length) 0

/-- `data_int = int.from_bytes(data_padded, byteorder='little')`. -/
def paddedInt (data : List Nat) : Nat :=
  bytesToNat (padTo8 data)

/-- The effective starting bit index computed by `extract_signal_value`
(lines 199-208): the signal's own `start_bit` for Intel layout, or the
Motorola-to-Intel translation `byte_pos * 8 + (7 - bit_pos) - size + 1`.
The translated index can be negative, hence the `Int` codomain. -/
def effectiveStartBit (sig : DBCSignal) : Int :=
  if sig.is_little_endian then
    (sig.start_bit : Int)
  else
    let byte_pos := sig.start_bit / 8
    let bit_pos := sig.start_bit % 8
    (byte_pos : Int) * 8 + (7 - (bit_pos : Int)) - (sig.size : Int) + 1

/-- `raw_value = (data_int >> start_bit) & mask` with
`mask = (1 << signal.size) - 1` (lines 211-212); only meaningful when the
effective starting bit is non-negative (otherwise Python raises). -/
def rawUnsigned (data : List Nat) (sig : DBCSignal) : Nat :=
  (paddedInt data >>> (effectiveStartBit sig).toNat) &&& ((1 <<< sig.size) - 1)

/-- Embeds `SignalDecoder.extract_signal_value` (lines 189-225).
The two `none` branches after the emptiness test model the places where the
Python body raises inside the `try` block and the `except` returns `None`:
a negative shift count (`data_int >> s` with `s < 0`), and `1 << -1` in the
sign test when `size = 0` and the signal is signed (the `and` short-circuit
skips that expression for unsigned signals). -/
def extract_signal_value (data : List Nat) (sig : DBCSignal) : Option ℚ :=
  if data.length = 0 then none
  else if effectiveStartBit sig < 0 then none
  else if sig.is_signed = true ∧ sig.size = 0 then none
  else
    let raw : Int :=
      if sig.is_signed = true ∧ rawUnsigned data sig &&& (1 <<< (sig.size - 1)) ≠ 0 then
        (rawUnsigned data sig : Int) - ((1 <<< sig.size : Nat) : Int)
      else
        (rawUnsigned data sig : Int)
    some ((raw : ℚ) * sig.factor + sig.offset)

/-- Lines 269-270 of `convert_log_to_csv`: the output row (timestamp plus one
cell per signal name) is (re)initialised only when the decoded-signal counter
`rrow` is zero; otherwise the previous row object is reused. -/
structure RowState where
  rrow : Nat
  ts : String
  vals : List (Option ℚ)
deriving DecidableEq

/-- `if rrow == 0: row = [timestamp] + [None] * len(all_signals)` — the row
carried into the body of the loop iteration for message `m`. -/
def initRow (all_signals : List String) (st : RowState) (m : CANMessage) :
    String × List (Option ℚ) :=
  if st.rrow = 0 then (m.timestamp, List.replicate all_signals.length none)
  else (st.ts, st.vals)

/-- The inner signal loop (lines 277-283): for each `(signal_name, signal)` of
the matched message, if the name is a known column and the decode is
non-`None`, write the value into the row cell and bump `rrow`. -/
def decodeInto (all_signals : List String) (data : List Nat)
    (st : Nat × List (Option ℚ)) (sigs : List (String × DBCSignal)) :
    Nat × List (Option ℚ) :=
  sigs.foldl
    (fun st p =>
      if all_signals.contains p.1 then
        match extract_signal_value data p.2 with
        | some v => (st.1 + 1, st.2.set (all_signals.indexOf p.1) (some v))
        | none => st
      else st)
    st

/-- One iteration of the `for can_message in can_messages` loop
(lines 267-286): initialise the row if `rrow == 0`, decode the signals when
the can id has a DBC definition, and emit the current row. Returns the new
loop state and the emitted row. -/
def convertStep (defs : List (Nat × DBCMessage)) (all_signals : List String)
    (st : RowState) (m : CANMessage) : RowState × (String × List (Option ℚ)) :=
  let row := initRow all_signals st m
  match defs.lookup m.can_id with
  | some dbc =>
      let r := decodeInto all_signals m.data (st.rrow, row.2) dbc.signals
      (⟨r.1, row.1, r.2⟩, (row.1, r.2))
  | none => (⟨st.rrow, row.1, row.2⟩, row)

/-- The whole message loop of `convert_log_to_csv`: fold `convertStep` over
the parsed CAN messages starting from `rrow = 0`, collecting the row written
by `writer.writerow(row)` at each iteration. -/
def convertRows (defs : List (Nat × DBCMessage)) (all_signals : List String)
    (msgs : List CANMessage) : List (String × List (Option ℚ)) :=
  (msgs.foldl
    (fun (p : RowState × List (String × List (Option ℚ))) m =>
      let s := convertStep defs all_signals p.1 m
      (s.1, p.2 ++ [s.2]))
    (⟨0, "", []⟩, [])).2

/-! ### Helper lemmas -/

/-- A list of bytes (each `< 256`) denotes an integer below `256 ^ length`. -/
theorem bytesToNat_lt (l : List Nat) (h : ∀ b ∈ l, b < 256) :
    bytesToNat l < 256 ^ l.length := by
  induction l with
  | nil => simp [bytesToNat]
  | cons b bs ih =>
    have hb : b < 256 := h b (List.mem_cons_self b bs)
    have hbs := ih (fun x hx => h x (List.mem_cons_of_mem b hx))
    simp only [bytesToNat, List.length_cons]
    have h2 : 256 ^ (bs.length + 1) = 256 * 256 ^ bs.length := by ring
    rw [h2]
    omega

theorem padTo8_length {data : List Nat} (h : data.length ≤ 8) :
    (padTo8 data).length = 8 := by
  simp only [padTo8, List.length_append, List.length_replicate]
  omega

theorem padTo8_bytes {data : List Nat} (h : ∀ b ∈ data, b < 256) :
    ∀ b ∈ padTo8 data, b < 256 := by
  intro b hb
  rcases List.mem_append.mp hb with h1 | h2
  · exact h b h1
  · rw [List.eq_of_mem_replicate h2]; norm_num

/-- A classic CAN payload (at most 8 bytes, bytes below 256) padded to 8 bytes
denotes an integer that fits in 64 bits. -/
theorem paddedInt_lt {data : List Nat} (h8 : data.length ≤ 8)
    (hb : ∀ b ∈ data, b < 256) : paddedInt data < 2 ^ 64 := by
  have h := bytesToNat_lt (padTo8 data) (padTo8_bytes hb)
  rw [padTo8_length h8] at h
  calc paddedInt data < 256 ^ 8 := h
    _ = 2 ^ 64 := by norm_num

/-- Masking with `(1 << size) - 1` is reduction modulo `2 ^ size`. -/
theorem rawUnsigned_eq_mod (data : List Nat) (sig : DBCSignal) :
    rawUnsigned data sig =
      (paddedInt data >>> (effectiveStartBit sig).toNat) % 2 ^ sig.size := by
  rw [rawUnsigned, Nat.one_shiftLeft, Nat.and_pow_two_sub_one_eq_mod]

/-! ### Concrete definitions used by counterexamples and witnesses -/

/-- Intel (little-endian) unsigned byte signal at bit 0, identity scaling. -/
def sigByte0 : DBCSignal := ⟨"S0", 0, 8, true, false, 1, 0, 0, 0, ""⟩

/-- Intel unsigned 1-bit signal at `start_bit = 64`, `offset = 5`: its
effective starting bit 64 lies outside 0..63. -/
def sigWide : DBCSignal := ⟨"W", 64, 1, true, false, 1, 5, 0, 0, ""⟩

/-- Motorola signal at `start_bit = 0` of width 9: its translated effective
starting bit is `0 + (7 - 0) - 9 + 1 = -1`, a negative shift count. -/
def sigNegS : DBCSignal := ⟨"N", 0, 9, false, false, 1, 0, 0, 0, ""⟩

/-- Intel signed byte signal at bit 0, identity scaling. -/
def sigSigned : DBCSignal := ⟨"G", 0, 8, true, true, 1, 0, 0, 0, ""⟩

/-- Motorola unsigned byte signal at Motorola `start_bit = 0`: its effective
starting bit is `0 * 8 + (7 - 0) - 8 + 1 = 0`, so it addresses exactly bits
0..7 of the little-endian payload integer — the same physical bits as
`sigByte0`. -/
def sigBE0 : DBCSignal := ⟨"B", 0, 8, false, false, 1, 0, 0, 0, ""⟩

/-- Intel unsigned byte signal at bit 64: it addresses the ninth payload
byte, beyond the classic 8-byte frame. -/
def sigHigh : DBCSignal := ⟨"H", 64, 8, true, false, 1, 0, 0, 0, ""⟩

/-- A DBC message owning only `sigByte0`, with can id 310 (0x136). -/
def msgDef310 : DBCMessage := ⟨310, "M", 8, [("S0", sigByte0)]⟩

/-- A log record with can id 310 (matched by `msgDef310`) and payload `13`. -/
def frameKnown : CANMessage := ⟨"09:25:06:1260", "Rx", 1, 310, 1, [19]⟩

/-- A log record whose can id 999 has no DBC definition. -/
def frameUnknown : CANMessage := ⟨"09:25:06:2000", "Rx", 1, 999, 1, [7]⟩

/-- Decoding payload `13` against `sigByte0` yields `0x13 = 19`. -/
theorem extract_sigByte0 : extract_signal_value [19] sigByte0 = some 19 := by
  have h : rawUnsigned [19] sigByte0 = 19 := by decide
  have h0 : effectiveStartBit sigByte0 = 0 := by decide
  norm_num [extract_signal_value, h, h0, show sigByte0.is_signed = false from rfl,
    show sigByte0.factor = 1 from rfl, show sigByte0.offset = 0 from rfl]

/-! ### Claim theorems -/

/-- C1: for a Motorola (BigEndian) signal the decoder computes the effective
starting bit as `(start_bit / 8) * 8 + (7 - start_bit % 8) - (bit_size - 1)`,
for an Intel (LittleEndian) signal it uses `start_bit` directly, and the raw
field is the little-endian 64-bit payload integer shifted right by that index
and masked to `bit_size` bits (equivalently, reduced modulo `2 ^ bit_size`). -/
theorem C1_effective_start_and_extraction (data : List Nat) (sig : DBCSignal)
    (hne : data.length ≠ 0) (hs : 0 ≤ effectiveStartBit sig) :
    effectiveStartBit sig =
      (if sig.is_little_endian then (sig.start_bit : Int)
       else ((sig.start_bit / 8 : Nat) : Int) * 8 + (7 - ((sig.start_bit % 8 : Nat) : Int))
            - ((sig.size : Int) - 1)) ∧
    rawUnsigned data sig =
      (paddedInt data >>> (effectiveStartBit sig).toNat) % 2 ^ sig.size ∧
    (sig.is_signed = false →
      extract_signal_value data sig =
        some ((rawUnsigned data sig : ℚ) * sig.factor + sig.offset)) := by
  refine ⟨?_, rawUnsigned_eq_mod data sig, ?_⟩
  · unfold effectiveStartBit
    split <;> [rfl; ring]
  · intro hu
    have h2 : ¬ effectiveStartBit sig < 0 := not_lt.mpr hs
    simp [extract_signal_value, hne, h2, hu]

/-- C4: decoding an empty payload returns the absent result for every signal
definition. -/
theorem C4_empty_payload (sig : DBCSignal) :
    extract_signal_value [] sig = none := by
  simp [extract_signal_value]

/-- C5: for payloads of length 1..8, decoding is unchanged by right-padding
the payload with zero bytes to 8 bytes; bits beyond the true payload length
read as zero. -/
theorem C5_zero_padding (data : List Nat) (sig : DBCSignal)
    (h1 : 1 ≤ data.length) (h8 : data.length ≤ 8) :
    extract_signal_value data sig =
      extract_signal_value (data ++ List.replicate (8 - data.length) 0) sig := by
  have hlen : (padTo8 data).length = 8 := padTo8_length h8
  have hp : padTo8 (padTo8 data) = padTo8 data := by
    unfold padTo8
    have h0 : 8 - (data ++ List.replicate (8 - data.length) 0).length = 0 := by
      simp only [List.length_append, List.length_replicate]
      omega
    rw [h0]
    simp
  have hpi : paddedInt (data ++ List.replicate (8 - data.length) 0) = paddedInt data := by
    show bytesToNat (padTo8 (padTo8 data)) = paddedInt data
    rw [hp]; rfl
  have hraw : ∀ s, rawUnsigned (data ++ List.replicate (8 - data.length) 0) s
      = rawUnsigned data s := by
    intro s; unfold rawUnsigned; rw [hpi]
  have hl1 : data.length ≠ 0 := by omega
  have hl2 : (data ++ List.replicate (8 - data.length) 0).length ≠ 0 := by
    show (padTo8 data).length ≠ 0
    omega
  simp only [extract_signal_value, hraw]
  rw [if_neg hl1, if_neg hl2]

/-- C6: for a signed signal whose extracted field has its top bit set the raw
value is the unsigned extraction minus `2 ^ bit_size`; otherwise (top bit
clear, or unsigned) it is the unsigned extraction; the returned physical
value is `raw * factor + offset`. -/
theorem C6_sign_extension (data : List Nat) (sig : DBCSignal)
    (hne : data.length ≠ 0) (hs : 0 ≤ effectiveStartBit sig) (hsz : 1 ≤ sig.size) :
    extract_signal_value data sig =
      some ((if sig.is_signed = true ∧ rawUnsigned data sig &&& 2 ^ (sig.size - 1) ≠ 0 then
               (rawUnsigned data sig : ℚ) - 2 ^ sig.size
             else (rawUnsigned data sig : ℚ)) * sig.factor + sig.offset) := by
  have h2 : ¬ effectiveStartBit sig < 0 := not_lt.mpr hs
  have h3 : ¬ (sig.is_signed = true ∧ sig.size = 0) := by
    rintro ⟨_, h⟩; omega
  simp only [extract_signal_value, hne, h2, h3, if_false, if_neg]
  rw [Nat.one_shiftLeft, Nat.one_shiftLeft]
  split_ifs with h4
  · push_cast
    ring_nf
  · push_cast
    ring_nf

/-- C2 counterexample: `sigWide` has effective starting bit 64, outside
0..63, yet decoding the non-empty payload `13` yields the numeric value 5
(its `offset`), not the absent result: Python's right shift by 64 is legal
and produces 0, so no exception is raised. -/
theorem C2_counterexample :
    effectiveStartBit sigWide = 64 ∧
    extract_signal_value [19] sigWide = some 5 := by
  refine ⟨by decide, ?_⟩
  have h : rawUnsigned [19] sigWide = 0 := by decide
  have h0 : effectiveStartBit sigWide = 64 := by decide
  norm_num [extract_signal_value, h, h0, show sigWide.is_signed = false from rfl,
    show sigWide.factor = 1 from rfl, show sigWide.offset = 5 from rfl]

/-- C2 as amended: on a non-empty payload, a *negative* effective starting
bit yields the absent result (Python raises on a negative shift count and the
handler returns `None`); an effective starting bit of 64 or more (with a
classic payload of at most 8 bytes and a positive field width) instead
decodes the numeric value `offset`, the extraction reading only zero bits.
Other signals are unaffected either way since decoding is per-signal pure. -/
theorem C2_amended_out_of_range (data : List Nat) (sig : DBCSignal)
    (hne : data.length ≠ 0) :
    (effectiveStartBit sig < 0 → extract_signal_value data sig = none) ∧
    (64 ≤ effectiveStartBit sig → data.length ≤ 8 → (∀ b ∈ data, b < 256) →
      1 ≤ sig.size → extract_signal_value data sig = some sig.offset) := by
  constructor
  · intro hneg
    simp [extract_signal_value, hne, hneg]
  · intro hs h8 hb hsz
    have hlt : paddedInt data < 2 ^ 64 := paddedInt_lt h8 hb
    have hsh : paddedInt data >>> (effectiveStartBit sig).toNat = 0 := by
      rw [Nat.shiftRight_eq_div_pow]
      apply Nat.div_eq_of_lt
      calc paddedInt data < 2 ^ 64 := hlt
        _ ≤ 2 ^ (effectiveStartBit sig).toNat :=
            Nat.pow_le_pow_right (by norm_num) (by omega)
    have hraw : rawUnsigned data sig = 0 := by
      rw [rawUnsigned_eq_mod, hsh, Nat.zero_mod]
    have h2 : ¬ effectiveStartBit sig < 0 := by omega
    have h3 : ¬ (sig.is_signed = true ∧ sig.size = 0) := by
      rintro ⟨_, h⟩; omega
    simp [extract_signal_value, hne, h2, h3, hraw]

/-- C3 (code bug): the row loop reinitialises the output row only when the
decoded-signal counter `rrow` is 0.  After `frameKnown` decodes one signal,
`rrow = 1`, so the row emitted for `frameUnknown` is the *same* row: it
carries `frameKnown`'s timestamp (not `frameUnknown`'s own, which differs)
and still holds the value 19 decoded from the earlier frame, instead of a
fresh row with `frameUnknown`'s timestamp and an empty signal cell. -/
theorem C3_row_aliasing :
    convertRows [(310, msgDef310)] ["S0"] [frameKnown, frameUnknown] =
      [("09:25:06:1260", [some 19]), ("09:25:06:1260", [some 19])] ∧
    frameUnknown.timestamp = "09:25:06:2000" := by
  refine ⟨?_, rfl⟩
  simp +decide [convertRows, convertStep, decodeInto, initRow, msgDef310,
    frameKnown, frameUnknown, extract_sigByte0, List.lookup]

/-- C7: a frame whose can id has no DBC definition contributes no decoded
signal: the loop state's decoded-signal counter and the row cells are left
exactly as the row-initialisation step produced them, no exception is
raised (the step is a total function), and the fold continues with the
remaining records. -/
theorem C7_unknown_can_id (defs : List (Nat × DBCMessage)) (sigs : List String)
    (st : RowState) (m : CANMessage) (h : defs.lookup m.can_id = none) :
    convertStep defs sigs st m =
      (⟨st.rrow, (initRow sigs st m).1, (initRow sigs st m).2⟩,
        initRow sigs st m) := by
  simp [convertStep, h]

/-- C8: a Motorola signal and an Intel signal that agree on width, sign,
scaling, and — via their respective start-bit conventions — on the effective
starting bit of the field (hence on the physical bits addressed), decode the
same raw value and the same physical value on every payload. -/
theorem C8_layout_agreement (sigBE sigLE : DBCSignal) (data : List Nat)
    (_hBE : sigBE.is_little_endian = false) (_hLE : sigLE.is_little_endian = true)
    (hsz : sigBE.size = sigLE.size) (hsg : sigBE.is_signed = sigLE.is_signed)
    (hf : sigBE.factor = sigLE.factor) (ho : sigBE.offset = sigLE.offset)
    (hsame : effectiveStartBit sigBE = effectiveStartBit sigLE) :
    rawUnsigned data sigBE = rawUnsigned data sigLE ∧
    extract_signal_value data sigBE = extract_signal_value data sigLE := by
  have hraw : rawUnsigned data sigBE = rawUnsigned data sigLE := by
    unfold rawUnsigned
    rw [hsame, hsz]
  refine ⟨hraw, ?_⟩
  simp only [extract_signal_value, hraw, hsame, hsz, hsg, hf, ho]

/-- C9: the decoder is total — for every payload and every signal of positive
width it returns `none` exactly when the payload is empty or the effective
starting bit is negative (the one exception site), and a numeric value in
every other case; no other input makes it fail. -/
theorem C9_totality (data : List Nat) (sig : DBCSignal) (hsz : 1 ≤ sig.size) :
    extract_signal_value data sig = none ↔
      data.length = 0 ∨ effectiveStartBit sig < 0 := by
  unfold extract_signal_value
  split_ifs with h1 h2 h3
  · simp [h1]
  · simp [h2]
  · exact absurd h3.2 (by omega)
  · simp [h1, h2]

/-- C10: a payload strictly longer than 8 bytes is neither truncated nor
rejected: no padding is added (`b'\x00' * (8 - len)` is empty for a negative
count), the whole payload is read as a little-endian integer, and a field
is extracted from that full integer — so bits in bytes 8 and beyond decode
from the actual payload content. -/
theorem C10_long_payload (data : List Nat) (sig : DBCSignal)
    (h8 : 8 < data.length) (hs : 0 ≤ effectiveStartBit sig)
    (hu : sig.is_signed = false) :
    paddedInt data = bytesToNat data ∧
    extract_signal_value data sig =
      some ((((bytesToNat data >>> (effectiveStartBit sig).toNat) % 2 ^ sig.size
        : Nat) : ℚ) * sig.factor + sig.offset) := by
  have hp : paddedInt data = bytesToNat data := by
    unfold paddedInt padTo8
    rw [show 8 - data.length = 0 by omega]
    simp
  refine ⟨hp, ?_⟩
  have hne : data.length ≠ 0 := by omega
  have h2 : ¬ effectiveStartBit sig < 0 := not_lt.mpr hs
  have hraw : rawUnsigned data sig =
      (bytesToNat data >>> (effectiveStartBit sig).toNat) % 2 ^ sig.size := by
    rw [rawUnsigned_eq_mod, hp]
  simp [extract_signal_value, hne, h2, hu, hraw]
  left
  norm_cast

/-! ### Witnesses: the theorems with hypotheses, applied at concrete inputs -/

/-- Witness for C1: payload `13 24`, Intel unsigned byte at bit 0. -/
theorem C1_witness :
    extract_signal_value [19, 36] sigByte0 =
      some ((rawUnsigned [19, 36] sigByte0 : ℚ) * sigByte0.factor + sigByte0.offset) :=
  (C1_effective_start_and_extraction [19, 36] sigByte0 (by decide) (by decide)).2.2
    (by decide)

/-- Witness for C2 (amended): the Motorola signal `sigNegS` (effective bit
-1) decodes payload `01` to `none`, while `sigWide` (effective bit 64)
decodes payload `13` to its offset. -/
theorem C2_amended_witness :
    extract_signal_value [1] sigNegS = none ∧
    extract_signal_value [19] sigWide = some sigWide.offset :=
  ⟨(C2_amended_out_of_range [1] sigNegS (by decide)).1 (by decide),
   (C2_amended_out_of_range [19] sigWide (by decide)).2 (by decide) (by decide)
     (by decide) (by decide)⟩

/-- Witness for C5: the 1-byte payload `13` decodes as its 8-byte
zero-padded form. -/
theorem C5_witness :
    extract_signal_value [19] sigByte0 =
      extract_signal_value ([19] ++ List.replicate (8 - ([19] : List Nat).length) 0)
        sigByte0 :=
  C5_zero_padding [19] sigByte0 (by decide) (by decide)

/-- Witness for C6: the signed byte signal on payload `FF` (top field bit
set). -/
theorem C6_witness :
    extract_signal_value [255] sigSigned =
      some ((if sigSigned.is_signed = true ∧
                rawUnsigned [255] sigSigned &&& 2 ^ (sigSigned.size - 1) ≠ 0 then
               (rawUnsigned [255] sigSigned : ℚ) - 2 ^ sigSigned.size
             else (rawUnsigned [255] sigSigned : ℚ)) * sigSigned.factor
            + sigSigned.offset) :=
  C6_sign_extension [255] sigSigned (by decide) (by decide) (by decide)

/-- Witness for C7: `frameUnknown` (can id 999) against the definition table
holding only can id 310. -/
theorem C7_witness :
    convertStep [(310, msgDef310)] ["S0"] ⟨0, "", []⟩ frameUnknown =
      (⟨(⟨0, "", []⟩ : RowState).rrow,
        (initRow ["S0"] ⟨0, "", []⟩ frameUnknown).1,
        (initRow ["S0"] ⟨0, "", []⟩ frameUnknown).2⟩,
       initRow ["S0"] ⟨0, "", []⟩ frameUnknown) :=
  C7_unknown_can_id [(310, msgDef310)] ["S0"] ⟨0, "", []⟩ frameUnknown (by decide)

/-- Witness for C8: Motorola `start_bit = 0` and Intel `start_bit = 0`, both
8 bits wide, address the same physical bits and agree on payload `13 24`. -/
theorem C8_witness :
    rawUnsigned [19, 36] sigBE0 = rawUnsigned [19, 36] sigByte0 ∧
    extract_signal_value [19, 36] sigBE0 = extract_signal_value [19, 36] sigByte0 :=
  C8_layout_agreement sigBE0 sigByte0 [19, 36] rfl rfl rfl rfl rfl rfl (by decide)

/-- Witness for C9: the absence characterisation at payload `13` and
`sigByte0`. -/
theorem C9_witness :
    (extract_signal_value [19] sigByte0 = none ↔
      ([19] : List Nat).length = 0 ∨ effectiveStartBit sigByte0 < 0) :=
  C9_totality [19] sigByte0 (by decide)

/-- Witness for C10: a 9-byte payload and the signal `sigHigh` addressing
its ninth byte. -/
theorem C10_witness :
    paddedInt [1, 2, 3, 4, 5, 6, 7, 8, 171] = bytesToNat [1, 2, 3, 4, 5, 6, 7, 8, 171] ∧
    extract_signal_value [1, 2, 3, 4, 5, 6, 7, 8, 171] sigHigh =
      some ((((bytesToNat [1, 2, 3, 4, 5, 6, 7, 8, 171] >>>
          (effectiveStartBit sigHigh).toNat) % 2 ^ sigHigh.size : Nat) : ℚ)
        * sigHigh.factor + sigHigh.offset) :=
  C10_long_payload [1, 2, 3, 4, 5, 6, 7, 8, 171] sigHigh (by decide) (by decide)
    (by decide)

end Busmaster
